import Mathlib

/-!
# Verification of the CASM symmetry-canonicalization core

Shallow embedding of the canonicalization engine of the CASMcode repository:

* `xtal::LatticePointWithin_f` and `xtal::OrderedLatticePointGenerator`
  (`src/unnamed/part_000`, second document): integer superlattice point
  reduction and Smith-Normal-Form ordered enumeration.
* `ScelCanonicalGenerator` / `ScelIsCanonical` (`src/unnamed/part_001`, first
  document): canonical-form search over a supercell permutation range.
* `Orbit` (`src/unnamed/part_001`, second document): orbit of an element under
  a symmetry group together with an equivalence map.
* The `SymCompare` preparation variants (`src/unnamed/part_000`, first
  document): Aperiodic / PrimPeriodic / ScelPeriodic / WithinScel.
* `Permutation::permute` / `Permutation::ipermute`
  (`src/include/casm/container/Permutation.hh`).

Machine `long` arithmetic is modelled by `ℤ` (the quantities involved are
lattice determinants and coordinates, far from overflow in all claims), and
`std::vector` by `List`.  Templated code generic over an Element type and a
comparator is embedded generically: `prepare`, `compare` and `copy_apply`
are explicit function parameters.
-/

namespace CASMVerify

/-- A 3-component integer lattice coordinate: the code's
`Eigen::Matrix<long, 3, 1>` (`LatticePointWithin_f::vector_type`). -/
structure Vec3 where
  x : ℤ
  y : ℤ
  z : ℤ
deriving DecidableEq, Repr

/-- A 3x3 integer matrix: the code's `Eigen::Matrix<long, 3, 3>`
(`LatticePointWithin_f::matrix_type`), entries `aRC` = row R, column C. -/
structure Mat3 where
  a00 : ℤ
  a01 : ℤ
  a02 : ℤ
  a10 : ℤ
  a11 : ℤ
  a12 : ℤ
  a20 : ℤ
  a21 : ℤ
  a22 : ℤ
deriving DecidableEq, Repr

instance : Add Vec3 :=
  ⟨fun u v => ⟨u.x + v.x, u.y + v.y, u.z + v.z⟩⟩

instance : Sub Vec3 :=
  ⟨fun u v => ⟨u.x - v.x, u.y - v.y, u.z - v.z⟩⟩

/-- Scalar multiple of an integer 3-vector. -/
def Vec3.smul (k : ℤ) (v : Vec3) : Vec3 :=
  ⟨k * v.x, k * v.y, k * v.z⟩

/-- Determinant of a 3x3 integer matrix (`Eigen`'s `.determinant()`,
expanded along the first row). -/
def Mat3.det (M : Mat3) : ℤ :=
  M.a00 * (M.a11 * M.a22 - M.a12 * M.a21)
    - M.a01 * (M.a10 * M.a22 - M.a12 * M.a20)
    + M.a02 * (M.a10 * M.a21 - M.a11 * M.a20)

/-- Adjugate (transposed cofactor matrix) of a 3x3 integer matrix; the code's
`adjugate` satisfying `adjugate(T) = det(T) * inverse(T)`. -/
def Mat3.adjugate (M : Mat3) : Mat3 :=
  ⟨M.a11 * M.a22 - M.a12 * M.a21, M.a02 * M.a21 - M.a01 * M.a22,
   M.a01 * M.a12 - M.a02 * M.a11,
   M.a12 * M.a20 - M.a10 * M.a22, M.a00 * M.a22 - M.a02 * M.a20,
   M.a02 * M.a10 - M.a00 * M.a12,
   M.a10 * M.a21 - M.a11 * M.a20, M.a01 * M.a20 - M.a00 * M.a21,
   M.a00 * M.a11 - M.a01 * M.a10⟩

/-- Matrix-vector product. -/
def Mat3.mulVec (M : Mat3) (v : Vec3) : Vec3 :=
  ⟨M.a00 * v.x + M.a01 * v.y + M.a02 * v.z,
   M.a10 * v.x + M.a11 * v.y + M.a12 * v.z,
   M.a20 * v.x + M.a21 * v.y + M.a22 * v.z⟩

/-- Matrix-matrix product. -/
def Mat3.matMul (M N : Mat3) : Mat3 :=
  ⟨M.a00 * N.a00 + M.a01 * N.a10 + M.a02 * N.a20,
   M.a00 * N.a01 + M.a01 * N.a11 + M.a02 * N.a21,
   M.a00 * N.a02 + M.a01 * N.a12 + M.a02 * N.a22,
   M.a10 * N.a00 + M.a11 * N.a10 + M.a12 * N.a20,
   M.a10 * N.a01 + M.a11 * N.a11 + M.a12 * N.a21,
   M.a10 * N.a02 + M.a11 * N.a12 + M.a12 * N.a22,
   M.a20 * N.a00 + M.a21 * N.a10 + M.a22 * N.a20,
   M.a20 * N.a01 + M.a21 * N.a11 + M.a22 * N.a21,
   M.a20 * N.a02 + M.a21 * N.a12 + M.a22 * N.a22⟩

/-- The identity 3x3 matrix. -/
def Mat3.one : Mat3 :=
  ⟨1, 0, 0, 0, 1, 0, 0, 0, 1⟩

/-- A diagonal 3x3 matrix (shape of a Smith-Normal-Form `S` factor). -/
def Mat3.diag (s1 s2 s3 : ℤ) : Mat3 :=
  ⟨s1, 0, 0, 0, s2, 0, 0, 0, s3⟩

/-! ## `xtal::LatticePointWithin_f`

The header (`src/unnamed/part_000`, lines 244-294) stores the transformation
matrix `T`, its adjugate and `det(T)`; the member function bodies live in
`Lattice.cc`, which is not among the provided sources, so the reduction and
the constructor check are modelled from the spec (sections 4.1 and 7). -/

/-- State of a constructed `LatticePointWithin_f`: transformation matrix `T`
(superlattice `S = U*T`), its adjugate, and `det(T)`
(`m_total_lattice_points_in_superlattice`). -/
structure LatticePointWithin_f where
  transformation_matrix : Mat3
  transformation_matrix_adjugate : Mat3
  total_lattice_points_in_superlattice : ℤ
deriving DecidableEq, Repr

/-- Modelled from the spec: the body of
`LatticePointWithin_f::_throw_if_bad_transformation_matrix` is not among the
provided sources; its header doc-comment says "Throws exception if the
transformation matrix has determinant 0" and spec section 7 says construction
with `det(T) = 0` is a fatal construction-time failure.  The constructor is
therefore embedded as a fallible function that errors exactly on
`det(T) = 0` and otherwise stores `T`, `adjugate(T)` and `det(T)`. -/
def LatticePointWithin_f.make (T : Mat3) : Except String LatticePointWithin_f :=
  if T.det = 0 then
    Except.error "superlattice transformation matrix has determinant 0"
  else
    Except.ok ⟨T, T.adjugate, T.det⟩

/-- Modelled from the spec: the body of `LatticePointWithin_f::operator()` is
not among the provided sources; spec section 4.1 prescribes: express the
coordinate in the adjugate-scaled basis (`adjugate(T) = det(T) * inverse(T)`,
integer), reduce componentwise modulo `det(T)`, and map back, all in exact
integer arithmetic.  `%` and `/` on `ℤ` are Euclidean mod (result in
`[0, |det|)`) and the matching division. -/
def latticePointWithin (T : Mat3) (p : Vec3) : Vec3 :=
  let D := T.det
  let v := T.adjugate.mulVec p
  let w : Vec3 := ⟨v.x % D, v.y % D, v.z % D⟩
  let u := T.mulVec w
  ⟨u.x / D, u.y / D, u.z / D⟩

/-! ## `xtal::OrderedLatticePointGenerator`

Header in `src/unnamed/part_000`, lines 307-346.  `size()` returns
`m_total_lattice_points`; `operator()(Index)` produces the lattice point of a
linear index.  The constructor body (Smith Normal Form computation) and
`operator()` body are not among the provided sources and are modelled from
the spec (section 4.2) and the header doc-comments
(`trans_mat = U*S*V, det(U)=det(V)=1, S diagonal`;
`l = m + n*stride[0] + p*stride[1]`; `U*mnp = ijk`). -/

/-- State of a constructed `OrderedLatticePointGenerator`: lattice point
count, the transformation matrix backing `m_bring_within_f`, and the Smith
Normal Form factors. -/
structure OrderedLatticePointGenerator where
  total_lattice_points : ℤ
  transformation_matrix : Mat3
  smith_normal_U : Mat3
  smith_normal_S : Mat3
  smith_normal_V : Mat3
deriving DecidableEq, Repr

/-- Modelled from the spec: the `OrderedLatticePointGenerator` constructor
(not among the provided sources) builds the contained `LatticePointWithin_f`
(so construction fails fatally exactly when that member's construction
throws, i.e. when `det(T) = 0`) and exposes `size() = |det(T)|`
(spec section 4.2).  The Smith Normal Form factors, produced there by a
`smith_normal_form` routine also absent from the sources, are taken as
inputs here; theorems that use them assume the defining SNF properties. -/
def OrderedLatticePointGenerator.make (T U S V : Mat3) :
    Except String OrderedLatticePointGenerator :=
  match LatticePointWithin_f.make T with
  | Except.error msg => Except.error msg
  | Except.ok _ => Except.ok ⟨|T.det|, T, U, S, V⟩

/-- The `OrderedLatticePointGenerator::size()`
(`src/unnamed/part_000`, lines 319-321): returns `m_total_lattice_points`. -/
def OrderedLatticePointGenerator.size (g : OrderedLatticePointGenerator) : ℤ :=
  g.total_lattice_points

/-- Modelled from the spec: `_make_smith_normal_form_lattice_point` (body not
among the provided sources) decomposes a linear index by mixed-radix
arithmetic with strides `stride[0] = S(0,0)` and `stride[1] = S(0,0)*S(1,1)`
(header doc: `l = m + n*stride[0] + p*stride[1]`). -/
def smithNormalFormLatticePoint (S : Mat3) (ix : ℤ) : Vec3 :=
  let s1 := S.a00
  let s2 := S.a11
  ⟨ix % s1, (ix % (s1 * s2)) / s1, ix / (s1 * s2)⟩

/-- Modelled from the spec: `OrderedLatticePointGenerator::operator()`
composes `_make_smith_normal_form_lattice_point` with
`_normalize_lattice_point` (header doc: `U*mnp = ijk`), then brings the
result within the superlattice with `m_bring_within_f`
(spec section 4.2). -/
def OrderedLatticePointGenerator.point (g : OrderedLatticePointGenerator)
    (ix : ℤ) : Vec3 :=
  latticePointWithin g.transformation_matrix
    (g.smith_normal_U.mulVec (smithNormalFormLatticePoint g.smith_normal_S ix))

/-! ## Canonical-form search: `ScelCanonicalGenerator` / `ScelIsCanonical`

`src/unnamed/part_001`, first document.  Both class templates are generic
over an Element type and act through a `SymCompareType` member; the embedding
takes `prepare : E → E`, `compare : E → E → Bool` and
`copy_apply : Op → E → E` as parameters, and a supercell permutation range
`[begin, end)` of `PermuteIterator` as a `List Op`. -/

/-- The comparator's derived equality:
`equal(A,B) = !compare(A,B) && !compare(B,A)` (doc-comments in
`src/unnamed/part_000`, lines 12-13, and spec section 4.3). -/
def symEqual {E : Type} (compare : E → E → Bool) (A B : E) : Bool :=
  !(compare A B) && !(compare B A)

/-- The `ScelIsCanonical::operator()(e, begin, end)`
(`src/unnamed/part_001`, lines 106-119): true iff no operation `op` in the
range has `compare(e, prepare(copy_apply(op, e)))`; note the first argument
of `compare` is the raw `e`, exactly as in the source
(`std::none_of(begin, end, less_than)`). -/
def ScelIsCanonical {E Op : Type} (prepare : E → E) (compare : E → E → Bool)
    (copy_apply : Op → E → E) (e : E) (ops : List Op) : Bool :=
  ops.all fun op => !(compare e (prepare (copy_apply op e)))

/-- One iteration of the `while` loop shared by both
`ScelCanonicalGenerator::operator()` overloads
(`src/unnamed/part_001`, lines 35-42 and 58-65): the state is
`(result, m_to_canonical)`. -/
def scelCanonicalStep {E Op : Type} (prepare : E → E) (compare : E → E → Bool)
    (copy_apply : Op → E → E) (e : E) (st : E × Op) (op : Op) : E × Op :=
  let test := prepare (copy_apply op e)
  if compare st.1 test then (test, op) else st

/-- The `ScelCanonicalGenerator::operator()` with the initial value of
`m_to_canonical` made explicit: the full-supercell overload
(`src/unnamed/part_001`, lines 28-44) initializes it to `permute_begin()`,
i.e. the head of the full range; the explicit-range overload (lines 50-68)
initializes it to `*begin`, i.e. the head of the given range.  Returns
(`result`, final `m_to_canonical`). -/
def ScelCanonicalGenerator_run {E Op : Type} (prepare : E → E)
    (compare : E → E → Bool) (copy_apply : Op → E → E) (e : E) (ops : List Op)
    (first : Op) : E × Op :=
  ops.foldl (scelCanonicalStep prepare compare copy_apply e) (prepare e, first)

/-- The loop body of `ScelCanonicalGenerator::operator()` restricted to the
`result` component (the returned value). -/
def scelResultStep {E Op : Type} (prepare : E → E) (compare : E → E → Bool)
    (copy_apply : Op → E → E) (e : E) (r : E) (op : Op) : E :=
  let test := prepare (copy_apply op e)
  if compare r test then test else r

/-- The Element returned by `ScelCanonicalGenerator::operator()` (the
`result` component of the loop state). -/
def ScelCanonicalGenerator_result {E Op : Type} (prepare : E → E)
    (compare : E → E → Bool) (copy_apply : Op → E → E) (e : E)
    (ops : List Op) : E :=
  ops.foldl (scelResultStep prepare compare copy_apply e) (prepare e)

/-- The `ScelCanonicalGenerator::to_canonical()`
(`src/unnamed/part_001`, lines 70-74): the recorded `m_to_canonical`. -/
def ScelCanonicalGenerator_to_canonical {E Op : Type} (st : E × Op) : Op :=
  st.2

/-- The `ScelCanonicalGenerator::from_canonical()`
(`src/unnamed/part_001`, lines 76-80): `to_canonical().inverse()`, with the
`PermuteIterator` inversion supplied as `inv`. -/
def ScelCanonicalGenerator_from_canonical {E Op : Type} (inv : Op → Op)
    (st : E × Op) : Op :=
  inv (ScelCanonicalGenerator_to_canonical st)

/-! ## `Orbit`

`src/unnamed/part_001`, second document, declares `Orbit` with `m_element`,
`m_equivalence_map` and `prototype() = m_element[0]`; the construction body
`_construct` is not among the provided sources and is modelled from spec
section 4.4. -/

/-- The stored state of an `Orbit`: `m_element` and `m_equivalence_map`. -/
structure OrbitData (E : Type) (Op : Type) where
  elements : List E
  eqmap : List (List Op)
deriving DecidableEq, Repr

/-- First index of the growing element list comparing equal to `test`
(the merge step's "equality-check against already-found images"). -/
def orbitFindIdx {E : Type} (compare : E → E → Bool) (test : E) :
    List E → Option ℕ
  | [] => none
  | b :: bs =>
    if symEqual compare test b then some 0
    else (orbitFindIdx compare test bs).map Nat.succ

/-- Modelled from the spec: one step of `Orbit::_construct` (body not among
the provided sources; spec section 4.4): apply the operation to the
generating element, prepare the image, and merge it into the growing set by
equality-check against already-found images — append the operation to that
image's equivalence-map entry on a match, otherwise create a new entry and
seed its equivalence-map list. -/
def orbitStep {E Op : Type} (prepare : E → E) (compare : E → E → Bool)
    (copy_apply : Op → E → E) (g : E) (st : OrbitData E Op) (op : Op) :
    OrbitData E Op :=
  let test := prepare (copy_apply op g)
  match orbitFindIdx compare test st.elements with
  | some i => ⟨st.elements, st.eqmap.set i (st.eqmap.getD i [] ++ [op])⟩
  | none => ⟨st.elements ++ [test], st.eqmap ++ [[op]]⟩

/-- Modelled from the spec: `Orbit::_construct` (spec section 4.4) applies
every group operation to the generating element in the group's given order
and merges each prepared image with `orbitStep`. -/
def makeOrbit {E Op : Type} (prepare : E → E) (compare : E → E → Bool)
    (copy_apply : Op → E → E) (g : E) (group : List Op) : OrbitData E Op :=
  group.foldl (orbitStep prepare compare copy_apply g) ⟨[], []⟩

/-- The `Orbit::prototype()` (`src/unnamed/part_001`, lines 188-191):
`m_element[0]`. -/
def OrbitData.prototype {E Op : Type} (o : OrbitData E Op) (d : E) : E :=
  o.elements.getD 0 d

/-! ## `SymCompare` preparation variants

`src/unnamed/part_000`, first document.  Cluster Elements are embedded as
`List Vec3` (the sites' integer lattice coordinates); `obj.size()` is the
list length, `obj.sort()` sorts with a supplied boolean ordering `le`,
`traits<Element>::position(el)` is the first site (the doc-comments speak of
`obj[0]`), and the `xtal::IntegralCoordinateWithin_f` member
`m_bring_within_f` is a supplied function `f : Vec3 → Vec3`. -/

/-- Insert into a sorted list: helper of the `obj.sort()` model. -/
def insertSorted {α : Type} (le : α → α → Bool) (a : α) : List α → List α
  | [] => [a]
  | b :: bs => if le a b then a :: b :: bs else b :: insertSorted le a bs

/-- Model of `obj.sort()`: insertion sort by `le`. -/
def sortList {α : Type} (le : α → α → Bool) : List α → List α
  | [] => []
  | a :: as => insertSorted le a (sortList le as)

/-- Model of `traits<Element>::position(el)`: the first site. -/
def clusterPosition (obj : List Vec3) : Vec3 :=
  obj.headD ⟨0, 0, 0⟩

/-- The `AperiodicSymCompare::spatial_prepare_impl`
(`src/unnamed/part_000`, lines 73-78): returns `obj` unchanged. -/
def aperiodicSpatialPrepare (obj : List Vec3) : List Vec3 :=
  obj

/-- The `AperiodicSymCompare::representation_prepare_impl`
(`src/unnamed/part_000`, lines 64-68): returns `obj.sort()`
(no emptiness check in the source). -/
def aperiodicRepresentationPrepare (le : Vec3 → Vec3 → Bool)
    (obj : List Vec3) : List Vec3 :=
  sortList le obj

/-- The `prepare(obj) = representation_prepare(spatial_prepare(obj))`
(spec section 4.3), Aperiodic variant. -/
def aperiodicPrepare (le : Vec3 → Vec3 → Bool) (obj : List Vec3) : List Vec3 :=
  aperiodicRepresentationPrepare le (aperiodicSpatialPrepare obj)

/-- The `PrimPeriodicSymCompare::spatial_prepare_impl`
(`src/unnamed/part_000`, lines 94-104): empty objects pass through;
otherwise translate so that `obj[0]` is in the origin unit cell
(`return obj - pos.unitcell()`). -/
def primPeriodicSpatialPrepare (obj : List Vec3) : List Vec3 :=
  if obj.length = 0 then obj
  else obj.map fun s => s - clusterPosition obj

/-- The `PrimPeriodicSymCompare::representation_prepare_impl`
(`src/unnamed/part_000`, lines 110-119): empty objects pass through;
otherwise `obj.sort()`. -/
def primPeriodicRepresentationPrepare (le : Vec3 → Vec3 → Bool)
    (obj : List Vec3) : List Vec3 :=
  if obj.length = 0 then obj else sortList le obj

/-- The `prepare`, PrimPeriodic variant. -/
def primPeriodicPrepare (le : Vec3 → Vec3 → Bool) (obj : List Vec3) :
    List Vec3 :=
  primPeriodicRepresentationPrepare le (primPeriodicSpatialPrepare obj)

/-- The `ScelPeriodicSymCompare::spatial_prepare_impl`
(`src/unnamed/part_000`, lines 138-147): empty objects pass through;
otherwise `return obj + (m_bring_within_f(pos).unitcell() - pos.unitcell())`
with `pos = position(obj)`. -/
def scelPeriodicSpatialPrepare (f : Vec3 → Vec3) (obj : List Vec3) :
    List Vec3 :=
  if obj.length = 0 then obj
  else obj.map fun s => s + (f (clusterPosition obj) - clusterPosition obj)

/-- The `ScelPeriodicSymCompare::representation_prepare_impl`
(`src/unnamed/part_000`, lines 153-162): empty objects pass through;
otherwise `obj.sort()`. -/
def scelPeriodicRepresentationPrepare (le : Vec3 → Vec3 → Bool)
    (obj : List Vec3) : List Vec3 :=
  if obj.length = 0 then obj else sortList le obj

/-- The `prepare`, ScelPeriodic variant. -/
def scelPeriodicPrepare (le : Vec3 → Vec3 → Bool) (f : Vec3 → Vec3)
    (obj : List Vec3) : List Vec3 :=
  scelPeriodicRepresentationPrepare le (scelPeriodicSpatialPrepare f obj)

/-- The `WithinScelSymCompare::spatial_prepare_impl`
(`src/unnamed/part_000`, lines 195-199): returns `obj` unchanged. -/
def withinScelSpatialPrepare (obj : List Vec3) : List Vec3 :=
  obj

/-- The `WithinScelSymCompare::representation_prepare_impl`
(`src/unnamed/part_000`, lines 204-215): empty objects pass through;
otherwise bring every site within the supercell, then `obj.sort()`. -/
def withinScelRepresentationPrepare (le : Vec3 → Vec3 → Bool)
    (f : Vec3 → Vec3) (obj : List Vec3) : List Vec3 :=
  if obj.length = 0 then obj else sortList le (obj.map f)

/-- The `prepare`, WithinScel variant. -/
def withinScelPrepare (le : Vec3 → Vec3 → Bool) (f : Vec3 → Vec3)
    (obj : List Vec3) : List Vec3 :=
  withinScelRepresentationPrepare le f (withinScelSpatialPrepare obj)

/-! ## `Permutation`

`src/include/casm/container/Permutation.hh`.  `m_perm_array` is a
`List ℕ`; permuted `std::vector<T>` contents are `List α` with a default
element standing for the (asserted-away) out-of-range reads. -/

/-- The `Permutation::is_perm()`: the body lives in `Permutation.cc`, not among
the provided sources; modelled from its header doc-comment (line 60):
"Checks that m_perm_array contains values from 0 to m_perm_array.size()-1
and that no value is repeated". -/
def Permutation.is_perm (p : List ℕ) : Prop :=
  (∀ k, k < p.length → k ∈ p) ∧ p.Nodup

instance (p : List ℕ) : Decidable (Permutation.is_perm p) := by
  unfold Permutation.is_perm
  infer_instance

/-- The `Permutation::permute` (`Permutation.hh`, lines 120-131):
`after_vec[i] = before_vec[m_perm_array[i]]` for `i < size()`. -/
def Permutation.permute {α : Type} [Inhabited α] (p : List ℕ)
    (before_vec : List α) : List α :=
  (List.range p.length).map fun i => before_vec.getD (p.getD i 0) default

/-- The loop body of `Permutation::ipermute`: for index `i` with
`i != m_perm_array[i]`, write `before_array[i]` at position
`m_perm_array[i]` of the output copy. -/
def Permutation.ipermStep {α : Type} [Inhabited α] (p : List ℕ)
    (before_array : List α) (after_array : List α) (i : ℕ) : List α :=
  if i ≠ p.getD i 0 then after_array.set (p.getD i 0) (before_array.getD i default)
  else after_array

/-- The `Permutation::ipermute` (`Permutation.hh`, lines 138-152): start from a
copy of `before_array`; for each `i < size()` with `i != m_perm_array[i]`,
write `before_array[i]` at position `m_perm_array[i]`. -/
def Permutation.ipermute {α : Type} [Inhabited α] (p : List ℕ)
    (before_array : List α) : List α :=
  (List.range p.length).foldl (Permutation.ipermStep p before_array) before_array

/-! ## Concrete comparator instances used by witnesses and counterexamples -/

/-- A concrete strict total order on `ℤ` for instantiating the generic
canonical-search code: `compare a b = (a < b)`. -/
def intLt (a b : ℤ) : Bool :=
  decide (a < b)

/-- A concrete `prepare` whose prepared form can differ from the raw
element: absolute value (idempotent, like a genuine preparation). -/
def absPrepare (a : ℤ) : ℤ :=
  |a|

/-- A one-operation "supercell group" acting trivially: `copy_apply () e = e`. -/
def idApply (_ : Unit) (e : ℤ) : ℤ :=
  e

/-- A two-operation action of `Bool` on `ℤ`: `false` acts as the identity,
`true` as negation (its own inverse). -/
def signApply (op : Bool) (e : ℤ) : ℤ :=
  if op then -e else e

/-! ## Component lemmas for the integer linear algebra -/

@[simp]
theorem Vec3.add_x (u v : Vec3) : (u + v).x = u.x + v.x := rfl

@[simp]
theorem Vec3.add_y (u v : Vec3) : (u + v).y = u.y + v.y := rfl

@[simp]
theorem Vec3.add_z (u v : Vec3) : (u + v).z = u.z + v.z := rfl

@[simp]
theorem Vec3.sub_x (u v : Vec3) : (u - v).x = u.x - v.x := rfl

@[simp]
theorem Vec3.sub_y (u v : Vec3) : (u - v).y = u.y - v.y := rfl

@[simp]
theorem Vec3.sub_z (u v : Vec3) : (u - v).z = u.z - v.z := rfl

@[simp]
theorem Vec3.smul_x (k : ℤ) (v : Vec3) : (Vec3.smul k v).x = k * v.x := rfl

@[simp]
theorem Vec3.smul_y (k : ℤ) (v : Vec3) : (Vec3.smul k v).y = k * v.y := rfl

@[simp]
theorem Vec3.smul_z (k : ℤ) (v : Vec3) : (Vec3.smul k v).z = k * v.z := rfl

theorem Vec3.ext_xyz (u v : Vec3) (hx : u.x = v.x) (hy : u.y = v.y)
    (hz : u.z = v.z) : u = v := by
  cases u
  cases v
  simp_all

/-- Matrix-vector multiplication is additive. -/
theorem Mat3.mulVec_add (M : Mat3) (u v : Vec3) :
    M.mulVec (u + v) = M.mulVec u + M.mulVec v := by
  cases M
  cases u
  cases v
  apply Vec3.ext_xyz <;> simp [Mat3.mulVec] <;> ring

/-- Matrix-vector multiplication respects subtraction. -/
theorem Mat3.mulVec_sub (M : Mat3) (u v : Vec3) :
    M.mulVec (u - v) = M.mulVec u - M.mulVec v := by
  cases M
  cases u
  cases v
  apply Vec3.ext_xyz <;> simp [Mat3.mulVec] <;> ring

/-- Matrix-vector multiplication commutes with scalar multiples. -/
theorem Mat3.mulVec_smul (M : Mat3) (k : ℤ) (v : Vec3) :
    M.mulVec (Vec3.smul k v) = Vec3.smul k (M.mulVec v) := by
  cases M
  cases v
  apply Vec3.ext_xyz <;> simp [Mat3.mulVec] <;> ring

/-- Matrix products act on vectors by composition. -/
theorem Mat3.matMul_mulVec (M N : Mat3) (v : Vec3) :
    (M.matMul N).mulVec v = M.mulVec (N.mulVec v) := by
  cases M
  cases N
  cases v
  apply Vec3.ext_xyz <;> simp [Mat3.mulVec, Mat3.matMul] <;> ring

/-- The `T * adjugate(T) = det(T) * I`, in matrix-vector form. -/
theorem Mat3.mulVec_adjugate_mulVec (T : Mat3) (v : Vec3) :
    T.mulVec (T.adjugate.mulVec v) = Vec3.smul T.det v := by
  cases T
  cases v
  apply Vec3.ext_xyz <;> simp [Mat3.mulVec, Mat3.adjugate, Mat3.det] <;> ring

/-- The `adjugate(T) * T = det(T) * I`, in matrix-vector form. -/
theorem Mat3.adjugate_mulVec_mulVec (T : Mat3) (v : Vec3) :
    T.adjugate.mulVec (T.mulVec v) = Vec3.smul T.det v := by
  cases T
  cases v
  apply Vec3.ext_xyz <;> simp [Mat3.mulVec, Mat3.adjugate, Mat3.det] <;> ring

/-- The determinant is multiplicative. -/
theorem Mat3.det_matMul (M N : Mat3) :
    (M.matMul N).det = M.det * N.det := by
  cases M
  cases N
  simp [Mat3.det, Mat3.matMul]
  ring

/-- The determinant of a diagonal matrix is the product of its diagonal. -/
theorem Mat3.det_diag (s1 s2 s3 : ℤ) :
    (Mat3.diag s1 s2 s3).det = s1 * s2 * s3 := by
  simp [Mat3.det, Mat3.diag]
  ring

/-! ## C5: periodicity of the lattice point reduction -/

/-- C5.  For every integer 3x3 transformation matrix `T` with `det(T) ≠ 0`,
every integer 3-vector `x` and every integer 3-vector `k`, the lattice-point
reduction of `LatticePointWithin_f` satisfies
`reduce_T(x + T*k) = reduce_T(x)`: translating the input by any superlattice
vector `T*k` does not change the reduced representative. -/
theorem latticePointWithin_periodic (T : Mat3) (x k : Vec3)
    (hD : T.det ≠ 0) :
    latticePointWithin T (x + T.mulVec k) = latticePointWithin T x := by
  have hv : T.adjugate.mulVec (x + T.mulVec k) =
      T.adjugate.mulVec x + Vec3.smul T.det k := by
    rw [Mat3.mulVec_add, Mat3.adjugate_mulVec_mulVec]
  simp only [latticePointWithin, hv, Vec3.add_x, Vec3.add_y, Vec3.add_z,
    Vec3.smul_x, Vec3.smul_y, Vec3.smul_z, Int.add_mul_emod_self_left]

/-- Witness for C5: `T = diag(2,2,2)`, `x = (1,0,0)`, `k = (1,2,-1)`. -/
theorem latticePointWithin_periodic_witness :
    (Mat3.diag 2 2 2).det ≠ 0 ∧
      latticePointWithin (Mat3.diag 2 2 2)
          ((⟨1, 0, 0⟩ : Vec3) + (Mat3.diag 2 2 2).mulVec ⟨1, 2, -1⟩) =
        latticePointWithin (Mat3.diag 2 2 2) ⟨1, 0, 0⟩ :=
  ⟨by decide, latticePointWithin_periodic (Mat3.diag 2 2 2) ⟨1, 0, 0⟩ ⟨1, 2, -1⟩ (by decide)⟩

/-! ## C6: determinant-zero transformation matrices are rejected -/

/-- C6.  Constructing a `LatticePointWithin_f` — and therefore an
`OrderedLatticePointGenerator`, which contains one — succeeds exactly when
the transformation matrix has nonzero determinant: with `det(T) = 0` the
construction fails fatally (errors before any reduction or enumeration state
exists), and with `det(T) ≠ 0` it succeeds. -/
theorem latticePointWithin_f_construction_fails_iff_det_zero
    (T U S V : Mat3) :
    ((LatticePointWithin_f.make T).isOk = true ↔ T.det ≠ 0) ∧
      ((OrderedLatticePointGenerator.make T U S V).isOk = true ↔ T.det ≠ 0) := by
  unfold OrderedLatticePointGenerator.make LatticePointWithin_f.make
  by_cases h : T.det = 0 <;> simp [h, Except.isOk, Except.toBool]

/-! ## C9: `prepare` passes empty Elements through unchanged -/

/-- C9.  For every `SymCompare` policy variant (Aperiodic, PrimPeriodic,
ScelPeriodic, WithinScel) and every Element `obj` with `obj.size() = 0`,
`prepare(obj) = representation_prepare(spatial_prepare(obj))` returns `obj`
unchanged (for any sorting order `le` and any bring-within function `f`). -/
theorem prepare_empty_passthrough (le : Vec3 → Vec3 → Bool)
    (f : Vec3 → Vec3) (obj : List Vec3) (h : obj.length = 0) :
    aperiodicPrepare le obj = obj ∧ primPeriodicPrepare le obj = obj ∧
      scelPeriodicPrepare le f obj = obj ∧ withinScelPrepare le f obj = obj := by
  rw [List.length_eq_zero] at h
  subst h
  refine ⟨rfl, rfl, rfl, rfl⟩

/-- Witness for C9: the empty cluster, with lexicographic-free ordering and
the identity bring-within map. -/
theorem prepare_empty_passthrough_witness :
    ([] : List Vec3).length = 0 ∧
      (aperiodicPrepare (fun _ _ => true) [] = [] ∧
        primPeriodicPrepare (fun _ _ => true) [] = [] ∧
          scelPeriodicPrepare (fun _ _ => true) id [] = [] ∧
            withinScelPrepare (fun _ _ => true) id [] = []) :=
  ⟨rfl, prepare_empty_passthrough (fun _ _ => true) id [] rfl⟩

/-! ## Helper lemmas for the canonical-form search loop -/

/-- Unfolding of the comparator equality. -/
theorem symEqual_eq_true_iff {E : Type} (compare : E → E → Bool) (A B : E) :
    symEqual compare A B = true ↔
      compare A B = false ∧ compare B A = false := by
  simp [symEqual]

/-- The search loop's running `result` is either its initial value or one of
the prepared images encountered along the range. -/
theorem scelResultFold_mem {E Op : Type} (prepare : E → E)
    (compare : E → E → Bool) (copy_apply : Op → E → E) (e : E) :
    ∀ (ops : List Op) (r0 : E),
      ops.foldl (scelResultStep prepare compare copy_apply e) r0 = r0 ∨
        ∃ op ∈ ops,
          ops.foldl (scelResultStep prepare compare copy_apply e) r0 =
            prepare (copy_apply op e) := by
  intro ops
  induction ops with
  | nil => exact fun r0 => Or.inl rfl
  | cons o os ih =>
    intro r0
    rcases ih (scelResultStep prepare compare copy_apply e r0 o) with h | ⟨op, hmem, h⟩
    · rw [List.foldl_cons, h]
      unfold scelResultStep
      by_cases hc : compare r0 (prepare (copy_apply o e)) = true
      · exact Or.inr ⟨o, List.mem_cons_self o os, by simp [hc]⟩
      · simp only [Bool.not_eq_true] at hc
        exact Or.inl (by simp [hc])
    · exact Or.inr ⟨op, List.mem_cons_of_mem o hmem, by rw [List.foldl_cons, h]⟩

/-- The search loop's `result` only moves strictly upward (with respect to a
transitive comparator): the final value is the initial value or strictly
greater. -/
theorem scelResultFold_reach {E Op : Type} (prepare : E → E)
    (compare : E → E → Bool) (copy_apply : Op → E → E) (e : E)
    (htrans : ∀ a b c, compare a b = true → compare b c = true →
      compare a c = true) :
    ∀ (ops : List Op) (r0 : E),
      ops.foldl (scelResultStep prepare compare copy_apply e) r0 = r0 ∨
        compare r0 (ops.foldl (scelResultStep prepare compare copy_apply e) r0) = true := by
  intro ops
  induction ops with
  | nil => exact fun r0 => Or.inl rfl
  | cons o os ih =>
    intro r0
    rw [List.foldl_cons]
    rcases ih (scelResultStep prepare compare copy_apply e r0 o) with h | h
    · rw [h]
      unfold scelResultStep
      by_cases hc : compare r0 (prepare (copy_apply o e)) = true
      · exact Or.inr (by simp [hc])
      · simp only [Bool.not_eq_true] at hc
        exact Or.inl (by simp [hc])
    · unfold scelResultStep at h ⊢
      by_cases hc : compare r0 (prepare (copy_apply o e)) = true
      · simp only [hc, if_true] at h ⊢
        exact Or.inr (htrans _ _ _ hc h)
      · simp only [Bool.not_eq_true] at hc
        simp only [hc, if_false] at h ⊢
        exact Or.inr h

/-- Maximality invariant of the search loop: with an irreflexive, transitive
comparator, the final `result` is not strictly below any prepared image seen
along the range. -/
theorem scelResultFold_dominates {E Op : Type} (prepare : E → E)
    (compare : E → E → Bool) (copy_apply : Op → E → E) (e : E)
    (hirr : ∀ a, compare a a = false)
    (htrans : ∀ a b c, compare a b = true → compare b c = true →
      compare a c = true) :
    ∀ (ops : List Op) (r0 : E), ∀ op ∈ ops,
      compare (ops.foldl (scelResultStep prepare compare copy_apply e) r0)
        (prepare (copy_apply op e)) = false := by
  intro ops
  induction ops with
  | nil => intro r0 op h; cases h
  | cons o os ih =>
    intro r0 op hmem
    rw [List.foldl_cons]
    rcases List.mem_cons.mp hmem with rfl | hmem
    · set r1 := scelResultStep prepare compare copy_apply e r0 op with hr1
      have h1 : compare r1 (prepare (copy_apply op e)) = false := by
        rw [hr1]
        unfold scelResultStep
        by_cases hc : compare r0 (prepare (copy_apply op e)) = true
        · simp [hc, hirr]
        · simp only [Bool.not_eq_true] at hc
          simp [hc]
      rcases scelResultFold_reach prepare compare copy_apply e htrans os r1 with h | h
      · rw [h]
        exact h1
      · by_contra hcon
        simp only [Bool.not_eq_false] at hcon
        have := htrans _ _ _ h hcon
        rw [h1] at this
        cases this
    · exact ih (scelResultStep prepare compare copy_apply e r0 o) op hmem

/-- If no prepared image strictly exceeds the initial value, the search loop
never replaces it. -/
theorem scelResultFold_stay {E Op : Type} (prepare : E → E)
    (compare : E → E → Bool) (copy_apply : Op → E → E) (e : E) :
    ∀ (ops : List Op) (r0 : E),
      (∀ op ∈ ops, compare r0 (prepare (copy_apply op e)) = false) →
        ops.foldl (scelResultStep prepare compare copy_apply e) r0 = r0 := by
  intro ops
  induction ops with
  | nil => exact fun r0 _ => rfl
  | cons o os ih =>
    intro r0 h
    rw [List.foldl_cons]
    have ho : scelResultStep prepare compare copy_apply e r0 o = r0 := by
      unfold scelResultStep
      simp [h o (List.mem_cons_self o os)]
    rw [ho]
    exact ih r0 fun op hmem => h op (List.mem_cons_of_mem o hmem)

/-- Invariant of the paired loop state: the prepared image of the recorded
`m_to_canonical` operation applied to `e` stays literally equal to the
running `result`. -/
theorem scelCanonicalFold_invariant {E Op : Type} (prepare : E → E)
    (compare : E → E → Bool) (copy_apply : Op → E → E) (e : E) :
    ∀ (ops : List Op) (st0 : E × Op),
      prepare (copy_apply st0.2 e) = st0.1 →
        prepare (copy_apply
            (ops.foldl (scelCanonicalStep prepare compare copy_apply e) st0).2 e) =
          (ops.foldl (scelCanonicalStep prepare compare copy_apply e) st0).1 := by
  intro ops
  induction ops with
  | nil => exact fun st0 h => h
  | cons o os ih =>
    intro st0 h
    rw [List.foldl_cons]
    apply ih
    unfold scelCanonicalStep
    by_cases hc : compare st0.1 (prepare (copy_apply o e)) = true
    · simp [hc]
    · simp only [Bool.not_eq_true] at hc
      simpa [hc]

/-! ## C1: agreement of `ScelIsCanonical` and `ScelCanonicalGenerator` -/

/-- Counterexample to C1 as stated: with the strict total order
`compare = (<)` on `ℤ`, the idempotent preparation `prepare = |·|`, the full
one-operation identity range, and the raw (unprepared) element `E = -1`,
`ScelIsCanonical` returns `false` (because the source compares the *raw*
element against prepared images) while the generator's result `|-1| = 1`
*is* comparator-equal to `prepare(-1) = 1`; the claimed equivalence fails. -/
theorem canonicality_agreement_counterexample :
    ¬ (ScelIsCanonical absPrepare intLt idApply (-1) [()] = true ↔
        symEqual intLt
            (ScelCanonicalGenerator_result absPrepare intLt idApply (-1) [()])
            (absPrepare (-1)) = true) := by
  decide

/-- C1 (amended).  For an element `E` that is its own prepared form
(`prepare(E) = E`) and a comparator that is irreflexive and transitive (the
strict-weak-order contract assumed by the spec), canonicality agreement
holds over any full permutation range: `ScelIsCanonical(E)` is true iff the
element returned by `ScelCanonicalGenerator_result(E)` is comparator-equal
to `prepare(E)`. -/
theorem canonicality_agreement {E Op : Type} (prepare : E → E)
    (compare : E → E → Bool) (copy_apply : Op → E → E) (e : E)
    (ops : List Op) (hprep : prepare e = e)
    (hirr : ∀ a, compare a a = false)
    (htrans : ∀ a b c, compare a b = true → compare b c = true →
      compare a c = true) :
    ScelIsCanonical prepare compare copy_apply e ops = true ↔
      symEqual compare
          (ScelCanonicalGenerator_result prepare compare copy_apply e ops)
          (prepare e) = true := by
  rw [symEqual_eq_true_iff]
  unfold ScelCanonicalGenerator_result
  constructor
  · intro h
    have hall : ∀ op ∈ ops, compare e (prepare (copy_apply op e)) = false := by
      intro op hmem
      have := List.all_eq_true.mp h op hmem
      simpa using this
    have hstay : ops.foldl (scelResultStep prepare compare copy_apply e)
        (prepare e) = prepare e := by
      apply scelResultFold_stay
      intro op hmem
      rw [hprep]
      exact hall op hmem
    rw [hstay]
    exact ⟨hirr _, hirr _⟩
  · intro h
    apply List.all_eq_true.mpr
    intro op hmem
    simp only [Bool.not_eq_eq_eq_not, Bool.not_true]
    by_contra hcon
    simp only [Bool.not_eq_false] at hcon
    have hdom := scelResultFold_dominates prepare compare copy_apply e hirr
      htrans ops (prepare e) op hmem
    rcases scelResultFold_reach prepare compare copy_apply e htrans ops
        (prepare e) with heq | hlt
    · rw [heq, hprep] at hdom
      rw [hdom] at hcon
      cases hcon
    · rcases h with ⟨-, h2⟩
      rw [hlt] at h2
      cases h2

/-- Witness for C1: prepared element `E = 1`, identity range. -/
theorem canonicality_agreement_witness :
    absPrepare 1 = 1 ∧
      (ScelIsCanonical absPrepare intLt idApply 1 [()] = true ↔
        symEqual intLt
            (ScelCanonicalGenerator_result absPrepare intLt idApply 1 [()])
            (absPrepare 1) = true) :=
  ⟨rfl, canonicality_agreement absPrepare intLt idApply 1 [()] rfl
    (fun a => by simp [intLt])
    (fun a b c h1 h2 => by
      simp only [intLt, decide_eq_true_eq] at h1 h2 ⊢
      omega)⟩

/-! ## C2: maximality of the generator's result -/

/-- C2.  Under the spec's strict-weak-order contract on `compare`
(irreflexive and transitive), for every element `e` the value returned by
`ScelCanonicalGenerator::operator()` over the full permutation range is
maximal: it is either `prepare(e)` or `prepare(copy_apply(op, e))` for some
`op` in the range, and no prepared image of any `op` in the range strictly
exceeds it. -/
theorem generator_result_maximal {E Op : Type} (prepare : E → E)
    (compare : E → E → Bool) (copy_apply : Op → E → E) (e : E)
    (ops : List Op) (hirr : ∀ a, compare a a = false)
    (htrans : ∀ a b c, compare a b = true → compare b c = true →
      compare a c = true) :
    (ScelCanonicalGenerator_result prepare compare copy_apply e ops =
        prepare e ∨
      ∃ op ∈ ops,
        ScelCanonicalGenerator_result prepare compare copy_apply e ops =
          prepare (copy_apply op e)) ∧
      ∀ op ∈ ops,
        compare (ScelCanonicalGenerator_result prepare compare copy_apply e ops)
          (prepare (copy_apply op e)) = false :=
  ⟨scelResultFold_mem prepare compare copy_apply e ops (prepare e),
   fun op hmem =>
    scelResultFold_dominates prepare compare copy_apply e hirr htrans ops
      (prepare e) op hmem⟩

/-- Witness for C2: `e = 3` under the sign action of `Bool` on `ℤ`. -/
theorem generator_result_maximal_witness :
    (∀ a : ℤ, intLt a a = false) ∧
      ((ScelCanonicalGenerator_result absPrepare intLt signApply 3
            [false, true] = absPrepare 3 ∨
          ∃ op ∈ [false, true],
            ScelCanonicalGenerator_result absPrepare intLt signApply 3
                [false, true] = absPrepare (signApply op 3)) ∧
        ∀ op ∈ [false, true],
          intLt (ScelCanonicalGenerator_result absPrepare intLt signApply 3
              [false, true]) (absPrepare (signApply op 3)) = false) :=
  ⟨fun a => by simp [intLt],
   generator_result_maximal absPrepare intLt signApply 3 [false, true]
    (fun a => by simp [intLt])
    (fun a b c h1 h2 => by
      simp only [intLt, decide_eq_true_eq] at h1 h2 ⊢
      omega)⟩

/-! ## C3: what `ScelIsCanonical` actually tests -/

/-- Counterexample to C3 as stated: with `prepare = |·|`, `compare = (<)`
and the one-operation identity range at `e = -1`, `ScelIsCanonical` returns
`false`, yet no operation satisfies
`compare(prepare(e), prepare(copy_apply(op, e)))` (since `|-1| = 1` is not
below `1`): the source tests the raw element, not its prepared image. -/
theorem is_canonical_raw_element_counterexample :
    ¬ (ScelIsCanonical absPrepare intLt idApply (-1) [()] = true ↔
        ∀ op ∈ [()],
          intLt (absPrepare (-1)) (absPrepare (idApply op (-1))) = false) := by
  decide

/-- C3 (amended).  For every element `e` and every permutation range,
`ScelIsCanonical::operator()` returns true iff no operation `op` in the
range satisfies `compare(e, prepare(copy_apply(op, e)))` — the test is
against the *raw* element exactly as passed in. -/
theorem is_canonical_iff_no_raw_improvement {E Op : Type} (prepare : E → E)
    (compare : E → E → Bool) (copy_apply : Op → E → E) (e : E)
    (ops : List Op) :
    ScelIsCanonical prepare compare copy_apply e ops = true ↔
      ∀ op ∈ ops, compare e (prepare (copy_apply op e)) = false := by
  unfold ScelIsCanonical
  rw [List.all_eq_true]
  constructor
  · intro h op hmem
    simpa using h op hmem
  · intro h op hmem
    simp [h op hmem]

/-! ## C4: `to_canonical` and `from_canonical` -/

/-- Counterexample to C4 as stated: for the explicit-range overload with the
non-empty range `[negation]` over `ℤ` (with `prepare = id`,
`compare = (<)`), element `e = 5`: the loop never improves on
`prepare(5) = 5`, so `m_to_canonical` keeps its initial value `*begin`
(the negation operation), and `prepare(copy_apply(to_canonical(), 5)) = -5`
is not comparator-equal to the returned canonical element `5`. -/
theorem to_canonical_reproduces_counterexample :
    symEqual intLt
        (id (signApply
          (ScelCanonicalGenerator_to_canonical
            (ScelCanonicalGenerator_run id intLt signApply 5 [true] true)) 5))
        (ScelCanonicalGenerator_run id intLt signApply 5 [true] true).1 =
      false := by
  decide

/-- C4 (amended).  For either overload of
`ScelCanonicalGenerator::operator()` on a non-empty range, *provided* the
range's first operation carries `e` to its own prepared form
(`prepare(copy_apply(first, e)) = prepare(e)` — as with the full-supercell
overload, whose range begins at the identity permutation), and with an
irreflexive comparator: preparing `copy_apply(to_canonical(), e)` yields an
element comparator-equal to the returned canonical element, and
`from_canonical()` equals `to_canonical().inverse()`. -/
theorem to_canonical_reproduces_result {E Op : Type} (prepare : E → E)
    (compare : E → E → Bool) (copy_apply : Op → E → E) (inv : Op → Op)
    (e : E) (ops : List Op) (first : Op)
    (hfirst : prepare (copy_apply first e) = prepare e)
    (hirr : ∀ a, compare a a = false) :
    symEqual compare
        (prepare (copy_apply
          (ScelCanonicalGenerator_to_canonical
            (ScelCanonicalGenerator_run prepare compare copy_apply e ops first)) e))
        (ScelCanonicalGenerator_run prepare compare copy_apply e ops first).1 =
      true ∧
    ScelCanonicalGenerator_from_canonical inv
        (ScelCanonicalGenerator_run prepare compare copy_apply e ops first) =
      inv (ScelCanonicalGenerator_to_canonical
        (ScelCanonicalGenerator_run prepare compare copy_apply e ops first)) := by
  constructor
  · have hinv := scelCanonicalFold_invariant prepare compare copy_apply e ops
      (prepare e, first) (by simpa using hfirst)
    unfold ScelCanonicalGenerator_run ScelCanonicalGenerator_to_canonical
    unfold ScelCanonicalGenerator_run at hinv
    rw [hinv]
    rw [symEqual_eq_true_iff]
    exact ⟨hirr _, hirr _⟩
  · rfl

/-- Witness for C4: range `[identity, negation]` over `ℤ`, `e = 5`, whose
head acts trivially on `e`. -/
theorem to_canonical_reproduces_result_witness :
    (id (signApply false 5) = id (5 : ℤ)) ∧
      (symEqual intLt
          (id (signApply
            (ScelCanonicalGenerator_to_canonical
              (ScelCanonicalGenerator_run id intLt signApply 5 [false, true] false)) 5))
          (ScelCanonicalGenerator_run id intLt signApply 5 [false, true] false).1 =
        true ∧
      ScelCanonicalGenerator_from_canonical id
          (ScelCanonicalGenerator_run id intLt signApply 5 [false, true] false) =
        id (ScelCanonicalGenerator_to_canonical
          (ScelCanonicalGenerator_run id intLt signApply 5 [false, true] false))) :=
  ⟨rfl, to_canonical_reproduces_result id intLt signApply id 5 [false, true]
    false rfl (fun a => by simp [intLt])⟩

/-! ## Helper lemmas for `Permutation` -/

/-- The `getD` after `set` at the same (in-range) position. -/
theorem list_getD_set_self {α : Type} (l : List α) (i : ℕ) (x d : α)
    (h : i < l.length) : (l.set i x).getD i d = x := by
  rw [List.getD_eq_getElem _ _ (by simpa using h)]
  rw [List.getElem_set_self]

/-- The `getD` after `set` at a different position. -/
theorem list_getD_set_ne {α : Type} (l : List α) (i j : ℕ) (x d : α)
    (h : i ≠ j) : (l.set i x).getD j d = l.getD j d := by
  by_cases hj : j < l.length
  · rw [List.getD_eq_getElem _ _ (by simpa using hj),
      List.getD_eq_getElem _ _ hj, List.getElem_set_ne h]
  · rw [List.getD_eq_default _ _ (by simpa using Nat.le_of_not_lt hj),
      List.getD_eq_default _ _ (Nat.le_of_not_lt hj)]

/-- An `is_perm` permutation array has all entries below its length. -/
theorem is_perm_entries_lt (p : List ℕ) (hp : Permutation.is_perm p) :
    ∀ x ∈ p, x < p.length := by
  rcases hp with ⟨h1, h2⟩
  have hsub : Finset.range p.length ⊆ p.toFinset := by
    intro k hk
    exact List.mem_toFinset.mpr (h1 k (Finset.mem_range.mp hk))
  have heq : Finset.range p.length = p.toFinset := by
    apply Finset.eq_of_subset_of_card_le hsub
    rw [List.toFinset_card_of_nodup h2, Finset.card_range]
  intro x hx
  have : x ∈ Finset.range p.length := by
    rw [heq]
    exact List.mem_toFinset.mpr hx
  exact Finset.mem_range.mp this

/-- Entry bound, `getD` form. -/
theorem is_perm_getD_lt (p : List ℕ) (hp : Permutation.is_perm p) (i : ℕ)
    (hi : i < p.length) : p.getD i 0 < p.length := by
  apply is_perm_entries_lt p hp
  rw [List.getD_eq_getElem _ _ hi]
  exact List.getElem_mem hi

/-- An `is_perm` permutation array is injective as an index map. -/
theorem is_perm_getD_inj (p : List ℕ) (hp : Permutation.is_perm p)
    (i j : ℕ) (hi : i < p.length) (hj : j < p.length)
    (h : p.getD i 0 = p.getD j 0) : i = j := by
  rcases hp with ⟨-, h2⟩
  rw [List.getD_eq_getElem _ _ hi, List.getD_eq_getElem _ _ hj] at h
  exact h2.getElem_inj_iff.mp h

/-- An `is_perm` permutation array is surjective onto `[0, size)`. -/
theorem is_perm_getD_surj (p : List ℕ) (hp : Permutation.is_perm p) (j : ℕ)
    (hj : j < p.length) :
    ∃ i, i < p.length ∧ p.getD i 0 = j := by
  rcases List.mem_iff_getElem.mp (hp.1 j hj) with ⟨i, hi, hget⟩
  exact ⟨i, hi, by rw [List.getD_eq_getElem _ _ hi]; exact hget⟩

/-- The `permute` preserves length. -/
theorem permute_length {α : Type} [Inhabited α] (p : List ℕ) (v : List α) :
    (Permutation.permute p v).length = p.length := by
  simp [Permutation.permute]

/-- Pointwise description of `permute`: `after[i] = before[p[i]]`. -/
theorem permute_getD {α : Type} [Inhabited α] (p : List ℕ) (v : List α)
    (i : ℕ) (h : i < p.length) :
    (Permutation.permute p v).getD i default =
      v.getD (p.getD i 0) default := by
  unfold Permutation.permute
  rw [List.getD_eq_getElem _ _ (by simpa using h)]
  simp

/-- The `ipermute` loop preserves the length of the output array. -/
theorem ipermFold_length {α : Type} [Inhabited α] (p : List ℕ) (v : List α) :
    ∀ (idxs : List ℕ) (acc : List α),
      (idxs.foldl (Permutation.ipermStep p v) acc).length = acc.length := by
  intro idxs
  induction idxs with
  | nil => exact fun acc => rfl
  | cons a rest ih =>
    intro acc
    rw [List.foldl_cons, ih]
    unfold Permutation.ipermStep
    by_cases hc : a = p.getD a 0
    · rw [if_neg fun h => h hc]
    · rw [if_pos hc, List.length_set]

/-- Positions the `ipermute` loop never writes keep their value. -/
theorem ipermFold_untouched {α : Type} [Inhabited α] (p : List ℕ)
    (v : List α) :
    ∀ (idxs : List ℕ) (acc : List α) (j : ℕ),
      (∀ i ∈ idxs, i ≠ p.getD i 0 → p.getD i 0 ≠ j) →
        (idxs.foldl (Permutation.ipermStep p v) acc).getD j default =
          acc.getD j default := by
  intro idxs
  induction idxs with
  | nil => exact fun acc j _ => rfl
  | cons a rest ih =>
    intro acc j hnw
    rw [List.foldl_cons]
    rw [ih _ j fun i hi => hnw i (List.mem_cons_of_mem a hi)]
    unfold Permutation.ipermStep
    by_cases hc : a = p.getD a 0
    · rw [if_neg fun h => h hc]
    · rw [if_pos hc]
      exact list_getD_set_ne _ _ _ _ _ (hnw a (List.mem_cons_self a rest) hc)

/-- Positions the `ipermute` loop writes receive the source value: after
processing a duplicate-free index list, position `p[i]` holds `before[i]`
for every processed `i` that is not a fixed point. -/
theorem ipermFold_written {α : Type} [Inhabited α] (p : List ℕ)
    (v : List α) :
    ∀ (idxs : List ℕ) (acc : List α), idxs.Nodup →
      (∀ i1 ∈ idxs, ∀ i2 ∈ idxs, p.getD i1 0 = p.getD i2 0 → i1 = i2) →
      (∀ i ∈ idxs, p.getD i 0 < acc.length) →
      ∀ i ∈ idxs, i ≠ p.getD i 0 →
        (idxs.foldl (Permutation.ipermStep p v) acc).getD (p.getD i 0) default =
          v.getD i default := by
  intro idxs
  induction idxs with
  | nil => intro acc _ _ _ i hi; cases hi
  | cons a rest ih =>
    intro acc hnd hinj hbound i hmem hne
    rw [List.foldl_cons]
    rcases List.mem_cons.mp hmem with rfl | hmem
    · have hstep : Permutation.ipermStep p v acc i =
          acc.set (p.getD i 0) (v.getD i default) := by
        unfold Permutation.ipermStep
        rw [if_pos hne]
      rw [hstep]
      rw [ipermFold_untouched p v rest _ (p.getD i 0) ?_]
      · exact list_getD_set_self _ _ _ _ (hbound i (List.mem_cons_self i rest))
      · intro i2 hi2 _ hcon
        have : i2 = i := hinj i2 (List.mem_cons_of_mem i hi2) i
          (List.mem_cons_self i rest) hcon
        subst this
        exact (List.nodup_cons.mp hnd).1 hi2
    · apply ih _ (List.nodup_cons.mp hnd).2
      · intro i1 h1 i2 h2
        exact hinj i1 (List.mem_cons_of_mem a h1) i2 (List.mem_cons_of_mem a h2)
      · intro i2 h2
        have hb2 := hbound i2 (List.mem_cons_of_mem a h2)
        unfold Permutation.ipermStep
        by_cases hc : a = p.getD a 0
        · rw [if_neg fun h => h hc]
          exact hb2
        · rw [if_pos hc, List.length_set]
          exact hb2
      · exact hmem
      · exact hne

/-- The `ipermute` preserves length. -/
theorem ipermute_length {α : Type} [Inhabited α] (p : List ℕ) (v : List α) :
    (Permutation.ipermute p v).length = v.length :=
  ipermFold_length p v (List.range p.length) v

/-- Pointwise description of `ipermute` for a valid permutation:
`after[p[i]] = before[i]`. -/
theorem ipermute_getD {α : Type} [Inhabited α] (p : List ℕ) (v : List α)
    (hp : Permutation.is_perm p) (hlen : v.length = p.length) (i : ℕ)
    (hi : i < p.length) :
    (Permutation.ipermute p v).getD (p.getD i 0) default =
      v.getD i default := by
  unfold Permutation.ipermute
  by_cases hfix : i = p.getD i 0
  · rw [ipermFold_untouched p v (List.range p.length) v (p.getD i 0) ?_]
    · rw [← hfix]
    · intro i2 hi2 hne2 hcon
      have hi2lt : i2 < p.length := List.mem_range.mp hi2
      have : i2 = i := is_perm_getD_inj p hp i2 i hi2lt hi hcon
      subst this
      exact hne2 hfix
  · apply ipermFold_written p v (List.range p.length) v (List.nodup_range _)
    · intro i1 h1 i2 h2
      exact is_perm_getD_inj p hp i1 i2 (List.mem_range.mp h1)
        (List.mem_range.mp h2)
    · intro i2 h2
      rw [hlen]
      exact is_perm_getD_lt p hp i2 (List.mem_range.mp h2)
    · exact List.mem_range.mpr hi
    · exact hfix

/-! ## C10: `ipermute` is the two-sided inverse of `permute` -/

/-- C10.  For every permutation array `p` for which `is_perm()` holds and
every vector `v` with `v.size() = p.size()`,
`ipermute(permute(v)) = v` and `permute(ipermute(v)) = v`: `ipermute` is a
two-sided inverse of `permute`, where `permute` satisfies
`after[i] = before[p[i]]`. -/
theorem permute_ipermute_inverse {α : Type} [Inhabited α] (p : List ℕ)
    (v : List α) (hp : Permutation.is_perm p)
    (hlen : v.length = p.length) :
    Permutation.ipermute p (Permutation.permute p v) = v ∧
      Permutation.permute p (Permutation.ipermute p v) = v := by
  have hpermlen : (Permutation.permute p v).length = p.length :=
    permute_length p v
  constructor
  · apply List.ext_getElem
    · rw [ipermute_length, hpermlen, hlen]
    · intro j hj hjv
      have hjp : j < p.length := by rw [← hlen]; exact hjv
      rcases is_perm_getD_surj p hp j hjp with ⟨i, hi, hpi⟩
      rw [← List.getD_eq_getElem _ default, ← List.getD_eq_getElem _ default]
      rw [← hpi]
      rw [ipermute_getD p (Permutation.permute p v) hp hpermlen i hi]
      rw [permute_getD p v i hi, hpi]
  · apply List.ext_getElem
    · rw [permute_length, hlen]
    · intro i hi hiv
      have hip : i < p.length := by rw [← hlen]; exact hiv
      rw [← List.getD_eq_getElem _ default, ← List.getD_eq_getElem _ default]
      rw [permute_getD p (Permutation.ipermute p v) i hip]
      exact ipermute_getD p v hp hlen i hip

/-- Witness for C10: `p = [1, 2, 0]` acting on `[10, 20, 30]`. -/
theorem permute_ipermute_inverse_witness :
    Permutation.is_perm [1, 2, 0] ∧
      ([10, 20, 30] : List ℤ).length = ([1, 2, 0] : List ℕ).length ∧
      (Permutation.ipermute [1, 2, 0] (Permutation.permute [1, 2, 0] ([10, 20, 30] : List ℤ)) =
          [10, 20, 30] ∧
        Permutation.permute [1, 2, 0] (Permutation.ipermute [1, 2, 0] ([10, 20, 30] : List ℤ)) =
          [10, 20, 30]) :=
  ⟨by decide, rfl,
   permute_ipermute_inverse [1, 2, 0] [10, 20, 30] (by decide) rfl⟩

/-! ## Helper lemmas for `Orbit` construction -/

/-- The `getD` on the left part of an append. -/
theorem list_getD_append_left {α : Type} (l ls : List α) (j : ℕ) (d : α)
    (h : j < l.length) : (l ++ ls).getD j d = l.getD j d := by
  rw [List.getD_eq_getElem _ _ (by simp; omega), List.getD_eq_getElem _ _ h,
    List.getElem_append_left h]

/-- The `getD` at the position of a just-appended element. -/
theorem list_getD_append_last {α : Type} (l : List α) (x : α) (d : α) :
    (l ++ [x]).getD l.length d = x := by
  rw [List.getD_eq_getElem _ _ (by simp)]
  rw [List.getElem_append_right (Nat.le_refl _)]
  simp

/-- A successful first-equal search returns an in-range index whose entry
compares equal to the probe. -/
theorem orbitFindIdx_some {E : Type} (compare : E → E → Bool) (test : E) :
    ∀ (l : List E) (i : ℕ) (d : E), orbitFindIdx compare test l = some i →
      i < l.length ∧ symEqual compare test (l.getD i d) = true := by
  intro l
  induction l with
  | nil => intro i d h; cases h
  | cons b bs ih =>
    intro i d h
    unfold orbitFindIdx at h
    by_cases hc : symEqual compare test b = true
    · rw [if_pos hc] at h
      cases h
      exact ⟨Nat.succ_pos _, hc⟩
    · rw [if_neg hc] at h
      rcases Option.map_eq_some'.mp h with ⟨i2, hfind, hi⟩
      rcases ih i2 d hfind with ⟨hlt, heq⟩
      subst hi
      exact ⟨Nat.succ_lt_succ hlt, heq⟩

/-- The `orbitStep` preserves the construction invariant: the equivalence map
has one non-empty entry per element, and each listed operation's prepared
image of the generating element compares equal to its element. -/
theorem orbitStep_invariant {E Op : Type} (prepare : E → E)
    (compare : E → E → Bool) (copy_apply : Op → E → E) (g : E)
    (hirr : ∀ a, compare a a = false) (st : OrbitData E Op) (op : Op)
    (h1 : st.eqmap.length = st.elements.length)
    (h2 : ∀ i, i < st.eqmap.length → st.eqmap.getD i [] ≠ [])
    (h3 : ∀ i, i < st.eqmap.length → ∀ o ∈ st.eqmap.getD i [],
      symEqual compare (prepare (copy_apply o g)) (st.elements.getD i g) = true) :
    (orbitStep prepare compare copy_apply g st op).eqmap.length =
        (orbitStep prepare compare copy_apply g st op).elements.length ∧
      (∀ i, i < (orbitStep prepare compare copy_apply g st op).eqmap.length →
        (orbitStep prepare compare copy_apply g st op).eqmap.getD i [] ≠ []) ∧
      ∀ i, i < (orbitStep prepare compare copy_apply g st op).eqmap.length →
        ∀ o ∈ (orbitStep prepare compare copy_apply g st op).eqmap.getD i [],
          symEqual compare (prepare (copy_apply o g))
            ((orbitStep prepare compare copy_apply g st op).elements.getD i g) =
            true := by
  rcases hfind : orbitFindIdx compare (prepare (copy_apply op g)) st.elements with - | i
  · have hred : orbitStep prepare compare copy_apply g st op =
        ⟨st.elements ++ [prepare (copy_apply op g)], st.eqmap ++ [[op]]⟩ := by
      simp only [orbitStep, hfind]
    rw [hred]
    refine ⟨by simp [h1], ?_, ?_⟩
    · intro i hi
      simp only [List.length_append, List.length_singleton] at hi
      rcases Nat.lt_succ_iff_lt_or_eq.mp hi with hi | hi
      · rw [list_getD_append_left _ _ _ _ hi]
        exact h2 i hi
      · subst hi
        rw [list_getD_append_last]
        simp
    · intro i hi o ho
      simp only [List.length_append, List.length_singleton] at hi ho ⊢
      rcases Nat.lt_succ_iff_lt_or_eq.mp hi with hi | hi
      · rw [list_getD_append_left _ _ _ _ hi] at ho
        rw [list_getD_append_left _ _ _ _ (by rw [← h1]; exact hi)]
        exact h3 i hi o ho
      · subst hi
        rw [list_getD_append_last] at ho
        rw [h1, list_getD_append_last]
        rcases List.mem_singleton.mp ho with rfl
        rw [symEqual_eq_true_iff]
        exact ⟨hirr _, hirr _⟩
  · rcases orbitFindIdx_some compare (prepare (copy_apply op g)) st.elements
      i g hfind with ⟨hilt, heq⟩
    have himap : i < st.eqmap.length := by rw [h1]; exact hilt
    have hred : orbitStep prepare compare copy_apply g st op =
        ⟨st.elements, st.eqmap.set i (st.eqmap.getD i [] ++ [op])⟩ := by
      simp only [orbitStep, hfind]
    rw [hred]
    refine ⟨by simp [h1], ?_, ?_⟩
    · intro j hj
      simp only [List.length_set] at hj
      by_cases hij : i = j
      · subst hij
        rw [list_getD_set_self _ _ _ _ himap]
        simp
      · rw [list_getD_set_ne _ _ _ _ _ hij]
        exact h2 j hj
    · intro j hj o ho
      simp only [List.length_set] at hj
      by_cases hij : i = j
      · subst hij
        rw [list_getD_set_self _ _ _ _ himap] at ho
        rcases List.mem_append.mp ho with ho | ho
        · exact h3 i hj o ho
        · rcases List.mem_singleton.mp ho with rfl
          exact heq
      · rw [list_getD_set_ne _ _ _ _ _ hij] at ho
        exact h3 j hj o ho

/-- The orbit-construction fold preserves the invariant. -/
theorem orbitFold_invariant {E Op : Type} (prepare : E → E)
    (compare : E → E → Bool) (copy_apply : Op → E → E) (g : E)
    (hirr : ∀ a, compare a a = false) :
    ∀ (group : List Op) (st : OrbitData E Op),
      st.eqmap.length = st.elements.length →
      (∀ i, i < st.eqmap.length → st.eqmap.getD i [] ≠ []) →
      (∀ i, i < st.eqmap.length → ∀ o ∈ st.eqmap.getD i [],
        symEqual compare (prepare (copy_apply o g)) (st.elements.getD i g) = true) →
      (group.foldl (orbitStep prepare compare copy_apply g) st).eqmap.length =
          (group.foldl (orbitStep prepare compare copy_apply g) st).elements.length ∧
        (∀ i, i < (group.foldl (orbitStep prepare compare copy_apply g) st).eqmap.length →
          (group.foldl (orbitStep prepare compare copy_apply g) st).eqmap.getD i [] ≠ []) ∧
        ∀ i, i < (group.foldl (orbitStep prepare compare copy_apply g) st).eqmap.length →
          ∀ o ∈ (group.foldl (orbitStep prepare compare copy_apply g) st).eqmap.getD i [],
            symEqual compare (prepare (copy_apply o g))
              ((group.foldl (orbitStep prepare compare copy_apply g) st).elements.getD i g) =
              true := by
  intro group
  induction group with
  | nil => exact fun st h1 h2 h3 => ⟨h1, h2, h3⟩
  | cons o os ih =>
    intro st h1 h2 h3
    rw [List.foldl_cons]
    rcases orbitStep_invariant prepare compare copy_apply g hirr st o h1 h2 h3
      with ⟨k1, k2, k3⟩
    exact ih _ k1 k2 k3

/-- The orbit-construction fold never changes the first stored element. -/
theorem orbitFold_head {E Op : Type} (prepare : E → E)
    (compare : E → E → Bool) (copy_apply : Op → E → E) (g : E) (d : E) :
    ∀ (group : List Op) (st : OrbitData E Op), st.elements ≠ [] →
      (group.foldl (orbitStep prepare compare copy_apply g) st).elements.getD 0 d =
        st.elements.getD 0 d := by
  intro group
  induction group with
  | nil => exact fun st _ => rfl
  | cons o os ih =>
    intro st hne
    rw [List.foldl_cons]
    have hstep : (orbitStep prepare compare copy_apply g st o).elements.getD 0 d =
        st.elements.getD 0 d ∧
        (orbitStep prepare compare copy_apply g st o).elements ≠ [] := by
      rcases hfind : orbitFindIdx compare (prepare (copy_apply o g)) st.elements
        with - | i
      · have hred : orbitStep prepare compare copy_apply g st o =
            ⟨st.elements ++ [prepare (copy_apply o g)], st.eqmap ++ [[o]]⟩ := by
          simp only [orbitStep, hfind]
        rw [hred]
        constructor
        · rcases List.exists_cons_of_ne_nil hne with ⟨b, bs, hb⟩
          rw [hb]
          rfl
        · simp
      · have hred : orbitStep prepare compare copy_apply g st o =
            ⟨st.elements, st.eqmap.set i (st.eqmap.getD i [] ++ [o])⟩ := by
          simp only [orbitStep, hfind]
        rw [hred]
        exact ⟨rfl, hne⟩
    rw [ih _ hstep.2, hstep.1]

/-! ## C8: soundness of the orbit's equivalence map -/

/-- C8.  For an Orbit built, as spec section 4.4 prescribes, from a prepared
generating element (`prepare(g) = g`) processed along a group whose listed
first operation fixes `g` (`copy_apply(op0, g) = g`, the canonical ordering
that starts from the generating element's own preparation), with an
irreflexive comparator: every equivalence-map entry is non-empty, and for
every member index `i` and every operation `op` in that member's entry,
`prepare(copy_apply(op, prototype()))` compares equal to `element(i)`. -/
theorem orbit_equivalence_map_sound {E Op : Type} (prepare : E → E)
    (compare : E → E → Bool) (copy_apply : Op → E → E) (g : E) (op0 : Op)
    (rest : List Op) (hid : copy_apply op0 g = g) (hprep : prepare g = g)
    (hirr : ∀ a, compare a a = false) :
    (∀ i, i < (makeOrbit prepare compare copy_apply g (op0 :: rest)).eqmap.length →
      (makeOrbit prepare compare copy_apply g (op0 :: rest)).eqmap.getD i [] ≠ []) ∧
      ∀ i, i < (makeOrbit prepare compare copy_apply g (op0 :: rest)).eqmap.length →
        ∀ op ∈ (makeOrbit prepare compare copy_apply g (op0 :: rest)).eqmap.getD i [],
          symEqual compare
            (prepare (copy_apply op
              ((makeOrbit prepare compare copy_apply g (op0 :: rest)).prototype g)))
            ((makeOrbit prepare compare copy_apply g (op0 :: rest)).elements.getD i g) =
            true := by
  have hst1 : orbitStep prepare compare copy_apply g ⟨[], []⟩ op0 =
      ⟨[g], [[op0]]⟩ := by
    unfold orbitStep orbitFindIdx
    simp [hid, hprep]
  have hunfold : makeOrbit prepare compare copy_apply g (op0 :: rest) =
      rest.foldl (orbitStep prepare compare copy_apply g) ⟨[g], [[op0]]⟩ := by
    unfold makeOrbit
    rw [List.foldl_cons, hst1]
  have hproto : (makeOrbit prepare compare copy_apply g (op0 :: rest)).prototype g = g := by
    unfold OrbitData.prototype
    rw [hunfold]
    rw [orbitFold_head prepare compare copy_apply g g rest ⟨[g], [[op0]]⟩ (by simp)]
    rfl
  have hinv := orbitFold_invariant prepare compare copy_apply g hirr rest
    ⟨[g], [[op0]]⟩ rfl
    (by
      intro i hi
      simp only [List.length_singleton] at hi
      interval_cases i
      simp)
    (by
      intro i hi o ho
      simp only [List.length_singleton] at hi
      interval_cases i
      have hentry : ([[op0]] : List (List Op)).getD 0 [] = [op0] := rfl
      rw [hentry] at ho
      rcases List.mem_singleton.mp ho with rfl
      have hg : ([g] : List E).getD 0 g = g := rfl
      rw [hg, hid, hprep, symEqual_eq_true_iff]
      exact ⟨hirr _, hirr _⟩)
  rw [hunfold] at hproto ⊢
  rw [hproto]
  exact ⟨hinv.2.1, hinv.2.2⟩

/-- Witness for C8: the sign action of `Bool` on `ℤ` with generating
element `3` and group `[identity, negation]`. -/
theorem orbit_equivalence_map_sound_witness :
    signApply false 3 = (3 : ℤ) ∧
      ((∀ i, i < (makeOrbit id intLt signApply 3 [false, true]).eqmap.length →
        (makeOrbit id intLt signApply 3 [false, true]).eqmap.getD i [] ≠ []) ∧
      ∀ i, i < (makeOrbit id intLt signApply 3 [false, true]).eqmap.length →
        ∀ op ∈ (makeOrbit id intLt signApply 3 [false, true]).eqmap.getD i [],
          symEqual intLt
            (id (signApply op
              ((makeOrbit id intLt signApply 3 [false, true]).prototype 3)))
            ((makeOrbit id intLt signApply 3 [false, true]).elements.getD i 3) =
            true) :=
  ⟨rfl, orbit_equivalence_map_sound id intLt signApply 3 false [true] rfl rfl
    (fun a => by simp [intLt])⟩

/-! ## Helper lemmas for the ordered lattice point generator -/

/-- Scalar multiplication by `1` is the identity. -/
theorem vec3_smul_one (v : Vec3) : Vec3.smul 1 v = v := by
  refine Vec3.ext_xyz _ _ ?_ ?_ ?_ <;> simp

/-- Rearranging a vector subtraction identity. -/
theorem vec3_sub_swap (a b c d : Vec3) (h : a - c = b - d) : a - b = c - d := by
  refine Vec3.ext_xyz _ _ ?_ ?_ ?_
  · have h1 := congrArg Vec3.x h
    simp only [Vec3.sub_x] at h1 ⊢
    omega
  · have h1 := congrArg Vec3.y h
    simp only [Vec3.sub_y] at h1 ⊢
    omega
  · have h1 := congrArg Vec3.z h
    simp only [Vec3.sub_z] at h1 ⊢
    omega

/-- A matrix with determinant `1` acts injectively on integer vectors. -/
theorem mat3_mulVec_inj_of_det_one (U : Mat3) (hU : U.det = 1) (z1 z2 : Vec3)
    (h : U.mulVec z1 = U.mulVec z2) : z1 = z2 := by
  have h1 := Mat3.adjugate_mulVec_mulVec U z1
  have h2 := Mat3.adjugate_mulVec_mulVec U z2
  rw [hU, vec3_smul_one] at h1 h2
  rw [← h1, ← h2, h]

/-- The action of a diagonal matrix on a vector. -/
theorem mat3_diag_mulVec (s1 s2 s3 : ℤ) (v : Vec3) :
    (Mat3.diag s1 s2 s3).mulVec v = ⟨s1 * v.x, s2 * v.y, s3 * v.z⟩ := by
  refine Vec3.ext_xyz _ _ ?_ ?_ ?_ <;> simp [Mat3.diag, Mat3.mulVec]

/-- Closed form of the lattice point reduction, given a vector `a` with
`T*a = det(T)*y` (in use, `a = adjugate(T)*y`): the reduction subtracts a
superlattice vector, namely `T` times the componentwise quotient of `a` by
`det(T)`. -/
theorem latticePointWithin_aux (T : Mat3) (y a : Vec3) (hD : T.det ≠ 0)
    (ha : T.mulVec a = Vec3.smul T.det y) :
    (⟨(T.mulVec ⟨a.x % T.det, a.y % T.det, a.z % T.det⟩).x / T.det,
      (T.mulVec ⟨a.x % T.det, a.y % T.det, a.z % T.det⟩).y / T.det,
      (T.mulVec ⟨a.x % T.det, a.y % T.det, a.z % T.det⟩).z / T.det⟩ : Vec3) =
      y - T.mulVec ⟨a.x / T.det, a.y / T.det, a.z / T.det⟩ := by
  have hw : (⟨a.x % T.det, a.y % T.det, a.z % T.det⟩ : Vec3) =
      a - Vec3.smul T.det ⟨a.x / T.det, a.y / T.det, a.z / T.det⟩ := by
    refine Vec3.ext_xyz _ _ ?_ ?_ ?_ <;> simp <;> rw [Int.emod_def]
  have hu : T.mulVec (⟨a.x % T.det, a.y % T.det, a.z % T.det⟩ : Vec3) =
      Vec3.smul T.det (y - T.mulVec ⟨a.x / T.det, a.y / T.det, a.z / T.det⟩) := by
    rw [hw, Mat3.mulVec_sub, Mat3.mulVec_smul, ha]
    refine Vec3.ext_xyz _ _ ?_ ?_ ?_ <;> simp <;> ring
  rw [hu]
  refine Vec3.ext_xyz _ _ ?_ ?_ ?_ <;> simp <;>
    exact Int.mul_ediv_cancel_left _ hD

/-- Closed form of the lattice point reduction: `reduce_T(y) = y - T*f(y)`
with `f(y)` the componentwise quotient of `adjugate(T)*y` by `det(T)`. -/
theorem latticePointWithin_eq (T : Mat3) (y : Vec3) (hD : T.det ≠ 0) :
    latticePointWithin T y =
      y - T.mulVec
        ⟨(T.adjugate.mulVec y).x / T.det, (T.adjugate.mulVec y).y / T.det,
          (T.adjugate.mulVec y).z / T.det⟩ :=
  latticePointWithin_aux T y (T.adjugate.mulVec y) hD
    (Mat3.mulVec_adjugate_mulVec T y)

/-- A multiple of `s` strictly between `-s` and `s` is zero. -/
theorem int_mul_bounds_eq_zero (s d w : ℤ) (hs : 0 < s) (hd : d = s * w)
    (hlow : -s < d) (hhigh : d < s) : d = 0 := by
  subst hd
  have hwlt : w < 1 := by
    by_contra hcon
    push_neg at hcon
    have := mul_le_mul_of_nonneg_left hcon hs.le
    linarith
  have hwgt : -1 < w := by
    by_contra hcon
    push_neg at hcon
    have := mul_le_mul_of_nonneg_left hcon hs.le
    linarith
  have hw0 : w = 0 := by omega
  rw [hw0]
  ring

/-- Bounds of the mixed-radix digits of a linear index. -/
theorem smith_mnp_bounds (s1 s2 s3 : ℤ) (hs1 : 0 < s1) (hs2 : 0 < s2)
    (hs3 : 0 < s3) (ix : ℤ) (h0 : 0 ≤ ix) (h1 : ix < s1 * s2 * s3) :
    0 ≤ ix % s1 ∧ ix % s1 < s1 ∧
      0 ≤ ix % (s1 * s2) / s1 ∧ ix % (s1 * s2) / s1 < s2 ∧
      0 ≤ ix / (s1 * s2) ∧ ix / (s1 * s2) < s3 := by
  have h12 : 0 < s1 * s2 := mul_pos hs1 hs2
  refine ⟨Int.emod_nonneg ix (ne_of_gt hs1), Int.emod_lt_of_pos ix hs1,
    Int.ediv_nonneg (Int.emod_nonneg ix (ne_of_gt h12)) hs1.le, ?_,
    Int.ediv_nonneg h0 h12.le, ?_⟩
  · rw [Int.ediv_lt_iff_lt_mul hs1]
    calc ix % (s1 * s2) < s1 * s2 := Int.emod_lt_of_pos ix h12
      _ = s2 * s1 := mul_comm s1 s2
  · rw [Int.ediv_lt_iff_lt_mul h12]
    calc ix < s1 * s2 * s3 := h1
      _ = s3 * (s1 * s2) := by ring

/-- A linear index is recovered from its mixed-radix digits. -/
theorem smith_index_reconstruct (s1 s2 : ℤ) (ix : ℤ) :
    s1 * s2 * (ix / (s1 * s2)) + s1 * (ix % (s1 * s2) / s1) + ix % s1 = ix := by
  have h1 := Int.ediv_add_emod ix (s1 * s2)
  have h2 := Int.ediv_add_emod (ix % (s1 * s2)) s1
  have h3 : ix % (s1 * s2) % s1 = ix % s1 :=
    Int.emod_emod_of_dvd ix (dvd_mul_right s1 s2)
  linarith

/-- Distinct in-range linear indices produce distinct lattice points: the
Smith-Normal-Form mixed-radix digits are recovered from the reduced point. -/
theorem olpg_point_inj (T U S V : Mat3) (s1 s2 s3 : ℤ)
    (hT : T = (U.matMul S).matMul V) (hS : S = Mat3.diag s1 s2 s3)
    (hs1 : 0 < s1) (hs2 : 0 < s2) (hs3 : 0 < s3) (hU : U.det = 1)
    (hV : V.det = 1) (x y : ℤ) (hx0 : 0 ≤ x) (hx1 : x < s1 * s2 * s3)
    (hy0 : 0 ≤ y) (hy1 : y < s1 * s2 * s3)
    (heq : latticePointWithin T (U.mulVec (smithNormalFormLatticePoint S x)) =
      latticePointWithin T (U.mulVec (smithNormalFormLatticePoint S y))) :
    x = y := by
  subst hS
  subst hT
  have hdet : ((U.matMul (Mat3.diag s1 s2 s3)).matMul V).det = s1 * s2 * s3 := by
    rw [Mat3.det_matMul, Mat3.det_matMul, Mat3.det_diag, hU, hV]
    ring
  have hdpos : 0 < ((U.matMul (Mat3.diag s1 s2 s3)).matMul V).det := by
    rw [hdet]
    positivity
  have hdne : ((U.matMul (Mat3.diag s1 s2 s3)).matMul V).det ≠ 0 :=
    ne_of_gt hdpos
  have hmx : smithNormalFormLatticePoint (Mat3.diag s1 s2 s3) x =
      ⟨x % s1, x % (s1 * s2) / s1, x / (s1 * s2)⟩ := rfl
  have hmy : smithNormalFormLatticePoint (Mat3.diag s1 s2 s3) y =
      ⟨y % s1, y % (s1 * s2) / s1, y / (s1 * s2)⟩ := rfl
  rw [hmx, hmy, latticePointWithin_eq _ _ hdne, latticePointWithin_eq _ _ hdne]
    at heq
  have hswap := vec3_sub_swap _ _ _ _ heq
  rw [← Mat3.mulVec_sub, ← Mat3.mulVec_sub, Mat3.matMul_mulVec,
    Mat3.matMul_mulVec] at hswap
  have hz := mat3_mulVec_inj_of_det_one U hU _ _ hswap
  rw [mat3_diag_mulVec] at hz
  rcases smith_mnp_bounds s1 s2 s3 hs1 hs2 hs3 x hx0 hx1 with
    ⟨bx1, bx2, bx3, bx4, bx5, bx6⟩
  rcases smith_mnp_bounds s1 s2 s3 hs1 hs2 hs3 y hy0 hy1 with
    ⟨by1, by2, by3, by4, by5, by6⟩
  have e1 : x % s1 = y % s1 := by
    have hc := congrArg Vec3.x hz
    simp only [Vec3.sub_x] at hc
    have := int_mul_bounds_eq_zero s1 (x % s1 - y % s1) _ hs1 hc
      (by linarith) (by linarith)
    linarith
  have e2 : x % (s1 * s2) / s1 = y % (s1 * s2) / s1 := by
    have hc := congrArg Vec3.y hz
    simp only [Vec3.sub_y] at hc
    have := int_mul_bounds_eq_zero s2 _ _ hs2 hc (by linarith) (by linarith)
    linarith
  have e3 : x / (s1 * s2) = y / (s1 * s2) := by
    have hc := congrArg Vec3.z hz
    simp only [Vec3.sub_z] at hc
    have := int_mul_bounds_eq_zero s3 _ _ hs3 hc (by linarith) (by linarith)
    linarith
  calc x = s1 * s2 * (x / (s1 * s2)) + s1 * (x % (s1 * s2) / s1) + x % s1 :=
        (smith_index_reconstruct s1 s2 x).symm
    _ = s1 * s2 * (y / (s1 * s2)) + s1 * (y % (s1 * s2) / s1) + y % s1 := by
        rw [e1, e2, e3]
    _ = y := smith_index_reconstruct s1 s2 y

/-! ## C7: the generator's size and point count -/

/-- C7.  For every integer 3x3 transformation matrix with a Smith Normal
Form decomposition `T = U*S*V` (`S = diag(s1,s2,s3)` with positive diagonal,
`det(U) = det(V) = 1` — hence `det(T) ≠ 0`), a successfully constructed
`OrderedLatticePointGenerator` satisfies `size() = |det(T)|`, and the points
produced over the linear indices `[0, size())` are pairwise distinct and
`size()` in number: the count of distinct producible lattice points equals
`|det(T)|`. -/
theorem generator_size_and_point_count (T U S V : Mat3) (s1 s2 s3 : ℤ)
    (hT : T = (U.matMul S).matMul V) (hS : S = Mat3.diag s1 s2 s3)
    (hs1 : 0 < s1) (hs2 : 0 < s2) (hs3 : 0 < s3) (hU : U.det = 1)
    (hV : V.det = 1) :
    ∀ g, OrderedLatticePointGenerator.make T U S V = Except.ok g →
      g.size = |T.det| ∧
        ((List.range g.size.toNat).map fun ix : ℕ => g.point (ix : ℤ)).Nodup ∧
        ((List.range g.size.toNat).map fun ix : ℕ => g.point (ix : ℤ)).length =
          g.size.toNat := by
  intro g hg
  have hdet : T.det = s1 * s2 * s3 := by
    rw [hT, Mat3.det_matMul, Mat3.det_matMul, hS, Mat3.det_diag, hU, hV]
    ring
  have hpos : 0 < T.det := by
    rw [hdet]
    positivity
  have hne : T.det ≠ 0 := ne_of_gt hpos
  have hmk : OrderedLatticePointGenerator.make T U S V =
      Except.ok ⟨|T.det|, T, U, S, V⟩ := by
    unfold OrderedLatticePointGenerator.make LatticePointWithin_f.make
    rw [if_neg hne]
  rw [hmk] at hg
  have hgval : g = ⟨|T.det|, T, U, S, V⟩ := by
    cases hg
    rfl
  subst hgval
  refine ⟨rfl, ?_, by simp⟩
  have hsize : (⟨|T.det|, T, U, S, V⟩ : OrderedLatticePointGenerator).size.toNat =
      (s1 * s2 * s3).toNat := by
    show (|T.det|).toNat = (s1 * s2 * s3).toNat
    rw [abs_of_pos hpos, hdet]
  rw [hsize]
  apply List.Nodup.map_on ?_ (List.nodup_range _)
  intro a ha b hb hfab
  have ha1 : (a : ℤ) < s1 * s2 * s3 := Int.lt_toNat.mp (List.mem_range.mp ha)
  have hb1 : (b : ℤ) < s1 * s2 * s3 := Int.lt_toNat.mp (List.mem_range.mp hb)
  have : (a : ℤ) = (b : ℤ) :=
    olpg_point_inj T U S V s1 s2 s3 hT hS hs1 hs2 hs3 hU hV (a : ℤ) (b : ℤ)
      (Int.ofNat_nonneg a) ha1 (Int.ofNat_nonneg b) hb1 hfab
  exact_mod_cast this

/-- Witness for C7: `T = S = diag(2,2,2)`, `U = V = I`; the generator has
size `8 = |det(T)|` and produces 8 distinct points. -/
theorem generator_size_and_point_count_witness :
    Mat3.diag 2 2 2 = (Mat3.one.matMul (Mat3.diag 2 2 2)).matMul Mat3.one ∧
      OrderedLatticePointGenerator.make (Mat3.diag 2 2 2) Mat3.one
          (Mat3.diag 2 2 2) Mat3.one =
        Except.ok ⟨8, Mat3.diag 2 2 2, Mat3.one, Mat3.diag 2 2 2, Mat3.one⟩ ∧
      ((⟨8, Mat3.diag 2 2 2, Mat3.one, Mat3.diag 2 2 2, Mat3.one⟩ :
            OrderedLatticePointGenerator).size = |(Mat3.diag 2 2 2).det| ∧
        ((List.range (⟨8, Mat3.diag 2 2 2, Mat3.one, Mat3.diag 2 2 2, Mat3.one⟩ :
              OrderedLatticePointGenerator).size.toNat).map fun ix : ℕ =>
            (⟨8, Mat3.diag 2 2 2, Mat3.one, Mat3.diag 2 2 2, Mat3.one⟩ :
              OrderedLatticePointGenerator).point (ix : ℤ)).Nodup ∧
        ((List.range (⟨8, Mat3.diag 2 2 2, Mat3.one, Mat3.diag 2 2 2, Mat3.one⟩ :
              OrderedLatticePointGenerator).size.toNat).map fun ix : ℕ =>
            (⟨8, Mat3.diag 2 2 2, Mat3.one, Mat3.diag 2 2 2, Mat3.one⟩ :
              OrderedLatticePointGenerator).point (ix : ℤ)).length =
          (⟨8, Mat3.diag 2 2 2, Mat3.one, Mat3.diag 2 2 2, Mat3.one⟩ :
            OrderedLatticePointGenerator).size.toNat) :=
  ⟨by decide, by rfl,
   generator_size_and_point_count (Mat3.diag 2 2 2) Mat3.one (Mat3.diag 2 2 2)
    Mat3.one 2 2 2 (by decide) rfl (by decide) (by decide) (by decide)
    (by decide) (by decide)
    ⟨8, Mat3.diag 2 2 2, Mat3.one, Mat3.diag 2 2 2, Mat3.one⟩ (by rfl)⟩

end CASMVerify
